import Mathlib

/-!
Shallow embedding of the NEMI maternity-readmission project:
the synthetic cohort generator (`src/utils/dataGenerator.ts`), the
logistic-regression engine and feature encoder (`src/utils/mlModel.ts`),
and the fairness audit in `src/App.tsx`.

Numbers are modelled with exact arithmetic: `ℚ` for the generator and the
feature encoder (whose computations are rational), and `ℝ` for the model,
whose `sigmoid` uses the exponential.  JavaScript's dynamic behaviour
(out-of-bounds array reads yielding `undefined`, arithmetic producing `NaN`,
`0/0 = NaN`, `NaN` comparisons being false) is modelled by the `JsVal` type
below for the claims where it matters.
-/

namespace NEMI

/-- Delivery type enum from `dataGenerator.ts` (`'Vaginal' | 'Cesarean'`). -/
inductive DeliveryType where
  | Vaginal
  | Cesarean
deriving DecidableEq

/-- Location enum from `dataGenerator.ts` (`'Urban' | 'Rural'`). -/
inductive Location where
  | Urban
  | Rural
deriving DecidableEq

/-- The `Patient` interface of `dataGenerator.ts`.  The optional, never-written
`riskScore` field is omitted.  Ages, durations and lengths of stay are
integers by construction in the generator, so they are carried as `ℤ`. -/
structure Patient where
  id : ℕ
  age : ℤ
  deliveryType : DeliveryType
  laborDuration : ℤ
  complications : Bool
  los : ℤ
  location : Location
  readmitted : Bool
deriving DecidableEq

/-- The additive ground-truth readmission probability computed inline in
`generateMaternityData` (lines 31-36 of `dataGenerator.ts`):
base `0.05`, `+0.15` Cesarean, `+0.25` complications, `+0.10` Rural,
`+0.10` age > 35, `+0.15` if los < 3 and Vaginal, never clamped. -/
def readmitProb (dt : DeliveryType) (comp : Bool) (loc : Location)
    (age los : ℤ) : ℚ :=
  let p0 : ℚ := 0.05
  let p1 := if dt = DeliveryType.Cesarean then p0 + 0.15 else p0
  let p2 := if comp then p1 + 0.25 else p1
  let p3 := if loc = Location.Rural then p2 + 0.10 else p2
  let p4 := if age > 35 then p3 + 0.10 else p3
  if los < 3 ∧ dt = DeliveryType.Vaginal then p4 + 0.15 else p4

/-- One loop iteration of `generateMaternityData`.  `Math.random()` is
modelled as an explicit stream `rnd : ℕ → ℚ` of draws (intended in `[0,1)`);
the record with loop index `i` consumes the seven consecutive draws
`rnd (7*i) .. rnd (7*i+6)` in the order the source calls `Math.random()`:
age, delivery type, location, labor duration, complications, the length-of-stay
offset, and the final Bernoulli draw for `readmitted`. -/
def genPatient (rnd : ℕ → ℚ) (i : ℕ) : Patient :=
  let age : ℤ := ⌊rnd (7 * i) * (45 - 18 + 1)⌋ + 18
  let deliveryType :=
    if rnd (7 * i + 1) > 0.7 then DeliveryType.Cesarean else DeliveryType.Vaginal
  let location :=
    if rnd (7 * i + 2) > 0.4 then Location.Urban else Location.Rural
  let laborDuration : ℤ := ⌊rnd (7 * i + 3) * 20⌋ + 4
  let complications := decide (rnd (7 * i + 4) > 0.8)
  let losBase : ℤ := if deliveryType = DeliveryType.Cesarean then 4 else 2
  let losComp : ℤ := if complications then losBase + 2 else losBase
  let los : ℤ := losComp + ⌊rnd (7 * i + 5) * 2⌋
  let prob := readmitProb deliveryType complications location age los
  let readmitted := decide (rnd (7 * i + 6) < prob)
  { id := i + 1, age := age, deliveryType := deliveryType,
    laborDuration := laborDuration, complications := complications,
    los := los, location := location, readmitted := readmitted }

/-- `generateMaternityData(count)` from `dataGenerator.ts`, with the ambient
`Math.random` made explicit as the draw stream `rnd`. -/
def generateMaternityData (count : ℕ) (rnd : ℕ → ℚ) : List Patient :=
  (List.range count).map (genPatient rnd)

/-- `preprocessPatient` from `mlModel.ts` (lines 57-66): the fixed-order,
fixed-constant 6-feature encoding. -/
def preprocessPatient (p : Patient) : List ℚ :=
  [(p.age : ℚ) / 45,
   if p.deliveryType = DeliveryType.Cesarean then 1 else 0,
   (p.laborDuration : ℚ) / 24,
   if p.complications then 1 else 0,
   (p.los : ℚ) / 10,
   if p.location = Location.Rural then 1 else 0]

/-!
## The logistic-regression model over `ℝ`

Direct transcription of the `LogisticRegression` class of `mlModel.ts` for
well-formed inputs (every row of the feature matrix, and any vector passed
to prediction, has the same width as the weight vector; the label vector has
the same length as the matrix).  Under these preconditions every array read
in the source is in bounds, and `zipWith`/`zip` reproduce the indexed loops
exactly.  The dynamic (`NaN`-producing) behaviour outside these
preconditions is modelled separately by the `JsVal` development below.
-/

/-- `sigmoid(z) = 1 / (1 + Math.exp(-z))` (line 16 of `mlModel.ts`). -/
noncomputable def sigmoid (z : ℝ) : ℝ := 1 / (1 + Real.exp (-z))

/-- `x.reduce((acc, val, idx) => acc + val * this.weights[idx], 0) + bias`:
the linear model used by both `fit` and `predictProba`.  For
`x.length ≤ w.length` (the well-formed case) the `zipWith` runs over exactly
the indices of `x`, as the source's `reduce` does. -/
noncomputable def linearModel (w : List ℝ) (b : ℝ) (x : List ℝ) : ℝ :=
  (List.zipWith (fun xi wi => xi * wi) x w).sum + b

/-- `predictProba` (lines 47-50 of `mlModel.ts`). -/
noncomputable def predictProba (w : List ℝ) (b : ℝ) (x : List ℝ) : ℝ :=
  sigmoid (linearModel w b x)

open Classical in
/-- `predict` (lines 52-54 of `mlModel.ts`): `predictProba(x) >= 0.5 ? 1 : 0`. -/
noncomputable def predict (w : List ℝ) (b : ℝ) (x : List ℝ) : ℕ :=
  if predictProba w b x ≥ 0.5 then 1 else 0

/-- One iteration of the gradient-descent loop in `fit` (lines 25-44 of
`mlModel.ts`): accumulate `dw`/`db` across the full batch, then do the
parameter update `w_k -= lr * dw_k / n`, `b -= lr * db / n`.  The `j`-loop
over samples is the fold over `X.zip y`, and the `k`-loops over features
are the `zipWith`s (all rows and `dw` have width `numFeatures`). -/
noncomputable def fitStep (lr : ℝ) (X : List (List ℝ)) (y : List ℝ)
    (wb : List ℝ × ℝ) : List ℝ × ℝ :=
  let n : ℕ := X.length
  let nf : ℕ := (X.headD []).length
  let acc := (X.zip y).foldl
    (fun (acc : List ℝ × ℝ) (s : List ℝ × ℝ) =>
      let diff := sigmoid (linearModel wb.1 wb.2 s.1) - s.2
      (List.zipWith (fun dk xk => dk + diff * xk) acc.1 s.1, acc.2 + diff))
    (List.replicate nf 0, 0)
  (List.zipWith (fun wk dk => wk - lr * dk / n) wb.1 acc.1,
   wb.2 - lr * acc.2 / n)

/-- `fit` (lines 19-45 of `mlModel.ts`): reset the weights to
`numFeatures = X[0].length` zeros and the bias to `0`, then run exactly
`iters` gradient-descent iterations.  (On the empty matrix the source
throws reading `X[0].length` before touching the parameters; that error
path is modelled by `fitJs` below, and the claims about this function
assume `X ≠ []`.) -/
noncomputable def fit (lr : ℝ) (iters : ℕ) (X : List (List ℝ)) (y : List ℝ) :
    List ℝ × ℝ :=
  (fitStep lr X y)^[iters] (List.replicate (X.headD []).length 0, 0)

/-!
## JavaScript number semantics

`JsVal` models the values the untyped source actually manipulates: either a
real number or `NaN`.  Out-of-bounds array reads in JavaScript yield
`undefined`, which (like `NaN`) turns every arithmetic operation it touches
into `NaN` and makes every `>=` comparison false; since the source only ever
feeds such reads into arithmetic or comparisons, `undefined` is identified
with `nan` here.  `0/0` is `NaN` in JavaScript; division of a nonzero number
by zero (which would be `Infinity`) is unreachable in the embedded code
— every denominator is either `1 + exp _ > 0`, a positive sample count, or a
group size that is zero only when the numerator is also zero. -/
inductive JsVal where
  | num (x : ℝ)
  | nan

/-- JavaScript `+` on numbers: `NaN` absorbs. -/
def jadd : JsVal → JsVal → JsVal
  | JsVal.num a, JsVal.num b => JsVal.num (a + b)
  | _, _ => JsVal.nan

/-- JavaScript `-` on numbers: `NaN` absorbs. -/
def jsub : JsVal → JsVal → JsVal
  | JsVal.num a, JsVal.num b => JsVal.num (a - b)
  | _, _ => JsVal.nan

/-- JavaScript `*` on numbers: `NaN` absorbs. -/
def jmul : JsVal → JsVal → JsVal
  | JsVal.num a, JsVal.num b => JsVal.num (a * b)
  | _, _ => JsVal.nan

/-- Unary minus. -/
def jneg : JsVal → JsVal
  | JsVal.num a => JsVal.num (-a)
  | JsVal.nan => JsVal.nan

open Classical in
/-- JavaScript `/`: `NaN` absorbs, and `0/0` (the only division by zero the
embedded code can reach) is `NaN`. -/
noncomputable def jdiv : JsVal → JsVal → JsVal
  | JsVal.num a, JsVal.num b => if b = 0 then JsVal.nan else JsVal.num (a / b)
  | _, _ => JsVal.nan

/-- `Math.exp`, `NaN`-propagating. -/
noncomputable def jexp : JsVal → JsVal
  | JsVal.num a => JsVal.num (Real.exp a)
  | JsVal.nan => JsVal.nan

/-- JavaScript `>=`: false whenever either side is `NaN`. -/
def jsGE : JsVal → JsVal → Prop
  | JsVal.num a, JsVal.num b => b ≤ a
  | _, _ => False

/-- Array indexing `l[i]`: `undefined` (= `nan`, see above) out of bounds. -/
def jsGet (l : List JsVal) (i : ℕ) : JsVal := l.getD i JsVal.nan

/-- `sigmoid` of `mlModel.ts` under JavaScript number semantics. -/
noncomputable def jsSigmoid (z : JsVal) : JsVal :=
  jdiv (JsVal.num 1) (jadd (JsVal.num 1) (jexp (jneg z)))

/-- The `reduce`-based linear model of `mlModel.ts` under JavaScript
semantics: iterate over the entries of `x` with their indices, reading
`weights[idx]` (possibly out of bounds), then add the bias. -/
noncomputable def linearModelJs (w : List JsVal) (b : JsVal) (x : List JsVal) :
    JsVal :=
  jadd (x.enum.foldl (fun acc p => jadd acc (jmul p.2 (jsGet w p.1)))
    (JsVal.num 0)) b

/-- `predictProba` under JavaScript semantics. -/
noncomputable def predictProbaJs (w : List JsVal) (b : JsVal) (x : List JsVal) :
    JsVal :=
  jsSigmoid (linearModelJs w b x)

open Classical in
/-- `predict` under JavaScript semantics: `NaN >= 0.5` is false, so a `NaN`
probability is classified as `0`. -/
noncomputable def predictJs (w : List JsVal) (b : JsVal) (x : List JsVal) : ℕ :=
  if jsGE (predictProbaJs w b x) (JsVal.num 0.5) then 1 else 0

/-- The error a JavaScript `fit([], y)` call raises: reading `.length` of
`X[0] = undefined` throws a `TypeError`. -/
inductive JsErr where
  | typeError

/-- One gradient-descent iteration of `fit` under JavaScript semantics:
`dw` starts as `numFeatures` zeros, the `j`-loop runs over the rows of `X`
reading `y[j]` and `X[j][k]` with JavaScript out-of-bounds behaviour, and
the update divides by `numSamples = X.length`. -/
noncomputable def fitStepJs (lr : JsVal) (X : List (List JsVal))
    (y : List JsVal) (nf : ℕ) (wb : List JsVal × JsVal) :
    List JsVal × JsVal :=
  let n : ℕ := X.length
  let acc := X.enum.foldl
    (fun (acc : List JsVal × JsVal) (jr : ℕ × List JsVal) =>
      let yPred := jsSigmoid (linearModelJs wb.1 wb.2 jr.2)
      let diff := jsub yPred (jsGet y jr.1)
      (acc.1.enum.map (fun kd => jadd kd.2 (jmul diff (jsGet jr.2 kd.1))),
       jadd acc.2 diff))
    (List.replicate nf (JsVal.num 0), JsVal.num 0)
  (List.zipWith (fun wk dk => jsub wk (jdiv (jmul lr dk) (JsVal.num n)))
    wb.1 acc.1,
   jsub wb.2 (jdiv (jmul lr acc.2) (JsVal.num n)))

/-- `fit` under JavaScript semantics.  On the empty matrix the read of
`X[0].length` throws synchronously before `this.weights` or `this.bias` is
assigned; otherwise the parameters are reset to zeros and `iters` iterations
run to completion with no further possibility of an exception (ragged rows
and short label vectors merely produce `NaN`s). -/
noncomputable def fitJs (lr : JsVal) (iters : ℕ) (X : List (List JsVal))
    (y : List JsVal) : Except JsErr (List JsVal × JsVal) :=
  match X with
  | [] => Except.error JsErr.typeError
  | r0 :: _ =>
      Except.ok ((fitStepJs lr X y r0.length)^[iters]
        (List.replicate r0.length (JsVal.num 0), JsVal.num 0))

/-!
## The fairness audit of `App.tsx`
-/

/-- A rational feature vector (as produced by `preprocessPatient`) viewed as
the JavaScript number array handed to the model. -/
def toJsVec (v : List ℚ) : List JsVal := v.map (fun q => JsVal.num (q : ℝ))

/-- `auditGroup` from `App.tsx` (lines 102-109), for a model with parameters
`(w, b)`: filter the cohort by the subgroup predicate, count the records
whose predicted label matches the ground-truth `readmitted` label, and
return `(correct / group.length) * 100` — with no guard for an empty group,
in which case the JavaScript division `0/0` yields `NaN`. -/
noncomputable def auditGroup (w : List JsVal) (b : JsVal) (data : List Patient)
    (filter : Patient → Bool) : JsVal :=
  let group := data.filter filter
  let correct := (group.filter (fun p =>
    decide (predictJs w b (toJsVec (preprocessPatient p)) =
      (if p.readmitted then 1 else 0)))).length
  jmul (jdiv (JsVal.num correct) (JsVal.num group.length)) (JsVal.num 100)

/-- The subgroup accuracy `accVaginal` of `ethicsAudit` in `App.tsx`. -/
noncomputable def accVaginal (w : List JsVal) (b : JsVal)
    (data : List Patient) : JsVal :=
  auditGroup w b data (fun p => decide (p.deliveryType = DeliveryType.Vaginal))

/-- The subgroup accuracy `accCesarean` of `ethicsAudit` in `App.tsx`. -/
noncomputable def accCesarean (w : List JsVal) (b : JsVal)
    (data : List Patient) : JsVal :=
  auditGroup w b data (fun p => decide (p.deliveryType = DeliveryType.Cesarean))

/-- The subgroup accuracy `accUrban` of `ethicsAudit` in `App.tsx`. -/
noncomputable def accUrban (w : List JsVal) (b : JsVal)
    (data : List Patient) : JsVal :=
  auditGroup w b data (fun p => decide (p.location = Location.Urban))

/-- The subgroup accuracy `accRural` of `ethicsAudit` in `App.tsx`. -/
noncomputable def accRural (w : List JsVal) (b : JsVal)
    (data : List Patient) : JsVal :=
  auditGroup w b data (fun p => decide (p.location = Location.Rural))

/-- The `(x || 0)` defaulting the UI applies to each accuracy before taking
differences: a `NaN` (falsy) becomes `0`; a real number is unchanged
(`0 || 0` is still `0`). -/
def jsOr0 : JsVal → ℝ
  | JsVal.num x => x
  | JsVal.nan => 0

/-- The bias-flag condition rendered at lines 553-554 of `App.tsx`:
`Math.abs(accVaginal - accCesarean) > 10 || Math.abs(accUrban - accRural) > 10`
after the `|| 0` defaulting. -/
noncomputable def biasFlag (w : List JsVal) (b : JsVal)
    (data : List Patient) : Prop :=
  |jsOr0 (accVaginal w b data) - jsOr0 (accCesarean w b data)| > 10 ∨
  |jsOr0 (accUrban w b data) - jsOr0 (accRural w b data)| > 10

/-!
## Helper lemmas
-/

/-- Bounds for `Math.floor(r * m)` when the draw `r` lies in `[0, 1)`. -/
lemma floor_mul_bounds (r : ℚ) (m : ℕ) (hm : 0 < m) (h0 : 0 ≤ r)
    (h1 : r < 1) : 0 ≤ ⌊r * (m : ℚ)⌋ ∧ ⌊r * (m : ℚ)⌋ ≤ (m : ℤ) - 1 := by
  have hmq : (0 : ℚ) < (m : ℚ) := by exact_mod_cast hm
  constructor
  · exact Int.floor_nonneg.mpr (by positivity)
  · have : r * (m : ℚ) < (m : ℚ) := by
      calc r * (m : ℚ) < 1 * (m : ℚ) := by
            exact mul_lt_mul_of_pos_right h1 hmq
        _ = (m : ℚ) := one_mul _
    have h3 : ⌊r * (m : ℚ)⌋ < (m : ℤ) :=
      Int.floor_lt.mpr (by push_cast; exact this)
    omega

/-- Field ranges of every record the generator produces, provided the random
draws lie in `[0, 1)`. -/
lemma genPatient_bounds (rnd : ℕ → ℚ) (i : ℕ)
    (hr : ∀ n, 0 ≤ rnd n ∧ rnd n < 1) :
    18 ≤ (genPatient rnd i).age ∧ (genPatient rnd i).age ≤ 45 ∧
    4 ≤ (genPatient rnd i).laborDuration ∧
    (genPatient rnd i).laborDuration ≤ 23 ∧
    2 ≤ (genPatient rnd i).los ∧ (genPatient rnd i).los ≤ 7 := by
  have hage := floor_mul_bounds (rnd (7 * i)) 28 (by norm_num)
    (hr (7 * i)).1 (hr (7 * i)).2
  have hlab := floor_mul_bounds (rnd (7 * i + 3)) 20 (by norm_num)
    (hr (7 * i + 3)).1 (hr (7 * i + 3)).2
  have hlos := floor_mul_bounds (rnd (7 * i + 5)) 2 (by norm_num)
    (hr (7 * i + 5)).1 (hr (7 * i + 5)).2
  have h28 : ((45 : ℚ) - 18 + 1) = (28 : ℕ) := by norm_num
  have h20 : ((20 : ℚ)) = ((20 : ℕ) : ℚ) := by norm_num
  have h2 : ((2 : ℚ)) = ((2 : ℕ) : ℚ) := by norm_num
  simp only [genPatient, h28, h20, h2]
  refine ⟨by omega, by omega, by omega, by omega, ?_, ?_⟩ <;>
    split_ifs <;> omega

/-- Every record of `generateMaternityData count rnd` is `genPatient rnd i`
for its loop index `i = id - 1 < count`. -/
lemma mem_generate (count : ℕ) (rnd : ℕ → ℚ) (p : Patient)
    (hp : p ∈ generateMaternityData count rnd) :
    ∃ i, i < count ∧ p = genPatient rnd i ∧ p.id = i + 1 := by
  simp only [generateMaternityData, List.mem_map, List.mem_range] at hp
  obtain ⟨i, hi, hpi⟩ := hp
  exact ⟨i, hi, hpi.symm, by rw [← hpi]; rfl⟩

/-!
## Claims about the cohort generator and feature encoder
-/

/-- Claim C1: the ground-truth readmission probability used for the Bernoulli
draw of every generated record is the additive rule
`0.05 + 0.15·Cesarean + 0.25·complications + 0.10·Rural + 0.10·(age>35)
+ 0.15·(Vaginal ∧ los<3)`, unclamped; in particular a Cesarean record with
complications, Rural location, age 40 and a 6-day stay gets `p = 0.65`. -/
theorem c1_readmission_probability :
    (∀ (dt : DeliveryType) (comp : Bool) (loc : Location) (age los : ℤ),
      readmitProb dt comp loc age los =
        0.05 + (if dt = DeliveryType.Cesarean then 0.15 else 0) +
          (if comp then 0.25 else 0) +
          (if loc = Location.Rural then 0.10 else 0) +
          (if age > 35 then 0.10 else 0) +
          (if dt = DeliveryType.Vaginal ∧ los < 3 then 0.15 else 0)) ∧
    readmitProb DeliveryType.Cesarean true Location.Rural 40 6 = 0.65 ∧
    ∀ (count : ℕ) (rnd : ℕ → ℚ) (p : Patient),
      p ∈ generateMaternityData count rnd →
      (p.readmitted = true ↔
        rnd (7 * (p.id - 1) + 6) <
          readmitProb p.deliveryType p.complications p.location p.age p.los) := by
  refine ⟨?_, by norm_num [readmitProb], ?_⟩
  · intro dt comp loc age los
    cases dt <;> cases comp <;> cases loc <;>
      by_cases hage : age > 35 <;> by_cases hlos : los < 3 <;>
        simp [readmitProb, hage, hlos]
  · intro count rnd p hp
    obtain ⟨i, _, hpi, _⟩ := mem_generate count rnd p hp
    subst hpi
    simp [genPatient]

/-- Concrete instance of C1's generator clause: with every draw equal to
`1/2` the single generated record is Vaginal, Urban, 32 years old with a
3-day stay, and its Bernoulli draw compares `1/2` with its probability. -/
theorem c1_readmission_probability_witness :
    (⟨1, 32, DeliveryType.Vaginal, 14, false, 3, Location.Urban, false⟩ :
        Patient) ∈ generateMaternityData 1 (fun _ => 1 / 2) ∧
    ((Patient.readmitted
        ⟨1, 32, DeliveryType.Vaginal, 14, false, 3, Location.Urban, false⟩ =
          true) ↔
      (fun _ : ℕ => (1 : ℚ) / 2) (7 * (1 - 1) + 6) <
        readmitProb DeliveryType.Vaginal false Location.Urban 32 3) := by
  have hmem : (⟨1, 32, DeliveryType.Vaginal, 14, false, 3, Location.Urban,
      false⟩ : Patient) ∈ generateMaternityData 1 (fun _ => 1 / 2) := by
    simp [generateMaternityData, genPatient, readmitProb]
    norm_num [Int.floor_eq_iff]
  exact ⟨hmem, c1_readmission_probability.2.2 1 (fun _ => 1 / 2) _ hmem⟩

/-- Claim C6: the feature encoding is exactly the fixed-order 6-vector
`[age/45, isCesarean, laborDuration/24, hasComplications, los/10, isRural]`
with fixed normalization constants; as a pure function of the record it is
deterministic and side-effect-free by construction. -/
theorem c6_encode_fixed_vector :
    ∀ p : Patient,
      preprocessPatient p =
        [(p.age : ℚ) / 45,
         if p.deliveryType = DeliveryType.Cesarean then 1 else 0,
         (p.laborDuration : ℚ) / 24,
         if p.complications then 1 else 0,
         (p.los : ℚ) / 10,
         if p.location = Location.Rural then 1 else 0] ∧
      (preprocessPatient p).length = 6 :=
  fun _ => ⟨rfl, rfl⟩

/-- Claim C8: for draws in `[0,1)`, `generate(count)` returns exactly
`count` records whose ids are `1..count` in order (hence pairwise distinct),
and every record satisfies `18 ≤ age ≤ 45`, `4 ≤ laborDurationHours ≤ 23`
and `lengthOfStayDays ≥ 2`. -/
theorem c8_generate_contract (count : ℕ) (rnd : ℕ → ℚ) (_hc : 0 < count)
    (hr : ∀ n, 0 ≤ rnd n ∧ rnd n < 1) :
    (generateMaternityData count rnd).length = count ∧
    (generateMaternityData count rnd).map Patient.id =
      (List.range count).map (fun i => i + 1) ∧
    ((generateMaternityData count rnd).map Patient.id).Nodup ∧
    ∀ p ∈ generateMaternityData count rnd,
      18 ≤ p.age ∧ p.age ≤ 45 ∧ 4 ≤ p.laborDuration ∧
        p.laborDuration ≤ 23 ∧ 2 ≤ p.los := by
  have hmap : (generateMaternityData count rnd).map Patient.id =
      (List.range count).map (fun i => i + 1) := by
    simp [generateMaternityData, List.map_map]
    intro a _
    rfl
  refine ⟨by simp [generateMaternityData], hmap, ?_, ?_⟩
  · rw [hmap]
    exact (List.nodup_range count).map (fun a b h => by omega)
  · intro p hp
    obtain ⟨i, _, hpi, _⟩ := mem_generate count rnd p hp
    subst hpi
    obtain ⟨h1, h2, h3, h4, h5, _⟩ := genPatient_bounds rnd i hr
    exact ⟨h1, h2, h3, h4, h5⟩

/-- Concrete instance of C8 at `count = 1` with all draws `1/2`. -/
theorem c8_generate_contract_witness :
    (0 < 1 ∧ ∀ n : ℕ, 0 ≤ (fun _ : ℕ => (1 : ℚ) / 2) n ∧
      (fun _ : ℕ => (1 : ℚ) / 2) n < 1) ∧
    (generateMaternityData 1 (fun _ => 1 / 2)).length = 1 := by
  have h : ∀ n : ℕ, 0 ≤ (fun _ : ℕ => (1 : ℚ) / 2) n ∧
      (fun _ : ℕ => (1 : ℚ) / 2) n < 1 := fun n => by norm_num
  exact ⟨⟨Nat.one_pos, h⟩,
    (c8_generate_contract 1 (fun _ => 1 / 2) Nat.one_pos h).1⟩

/-- Claim C10: every component of the encoded feature vector of every
generator-produced record lies in `[0, 1]`, provided the draws lie in
`[0, 1)`. -/
theorem c10_features_unit_interval (count : ℕ) (rnd : ℕ → ℚ)
    (hr : ∀ n, 0 ≤ rnd n ∧ rnd n < 1) :
    ∀ p ∈ generateMaternityData count rnd,
      ∀ x ∈ preprocessPatient p, 0 ≤ x ∧ x ≤ 1 := by
  intro p hp x hx
  obtain ⟨i, _, hpi, _⟩ := mem_generate count rnd p hp
  obtain ⟨h1, h2, h3, h4, h5, h6⟩ := genPatient_bounds rnd i (by exact hr)
  rw [hpi] at hx
  have hA : (18 : ℚ) ≤ ((genPatient rnd i).age : ℚ) ∧
      ((genPatient rnd i).age : ℚ) ≤ 45 :=
    ⟨by exact_mod_cast h1, by exact_mod_cast h2⟩
  have hL : (4 : ℚ) ≤ ((genPatient rnd i).laborDuration : ℚ) ∧
      ((genPatient rnd i).laborDuration : ℚ) ≤ 23 :=
    ⟨by exact_mod_cast h3, by exact_mod_cast h4⟩
  have hS : (2 : ℚ) ≤ ((genPatient rnd i).los : ℚ) ∧
      ((genPatient rnd i).los : ℚ) ≤ 7 :=
    ⟨by exact_mod_cast h5, by exact_mod_cast h6⟩
  simp only [preprocessPatient, List.mem_cons, List.not_mem_nil, or_false]
    at hx
  rcases hx with h | h | h | h | h | h <;> subst h <;>
    first
      | (constructor <;>
          linarith [hA.1, hA.2, hL.1, hL.2, hS.1, hS.2])
      | (split_ifs <;> norm_num)

/-- Concrete instance of C10: the all-draws-`1/2` record encodes inside
`[0, 1]` in every coordinate. -/
theorem c10_features_unit_interval_witness :
    (∀ n : ℕ, 0 ≤ (fun _ : ℕ => (1 : ℚ) / 2) n ∧
      (fun _ : ℕ => (1 : ℚ) / 2) n < 1) ∧
    ∀ x ∈ preprocessPatient
        (⟨1, 32, DeliveryType.Vaginal, 14, false, 3, Location.Urban, false⟩ :
          Patient), 0 ≤ x ∧ x ≤ 1 := by
  have h : ∀ n : ℕ, 0 ≤ (fun _ : ℕ => (1 : ℚ) / 2) n ∧
      (fun _ : ℕ => (1 : ℚ) / 2) n < 1 := fun n => by norm_num
  have hmem : (⟨1, 32, DeliveryType.Vaginal, 14, false, 3, Location.Urban,
      false⟩ : Patient) ∈ generateMaternityData 1 (fun _ => 1 / 2) := by
    simp [generateMaternityData, genPatient, readmitProb]
    norm_num [Int.floor_eq_iff]
  exact ⟨h, c10_features_unit_interval 1 (fun _ => 1 / 2) h _ hmem⟩

/-!
## Helper lemmas about JavaScript number semantics
-/

/-- `NaN` absorbs addition on the right. -/
lemma jadd_nan (a : JsVal) : jadd a JsVal.nan = JsVal.nan := by
  cases a <;> rfl

/-- `NaN` absorbs addition on the left. -/
lemma nan_jadd (b : JsVal) : jadd JsVal.nan b = JsVal.nan := by
  cases b <;> rfl

/-- `NaN` absorbs multiplication on the right. -/
lemma jmul_nan (a : JsVal) : jmul a JsVal.nan = JsVal.nan := by
  cases a <;> rfl

/-- Every read from the empty weights array is `undefined` (= `nan`). -/
lemma jsGet_nil (i : ℕ) : jsGet ([] : List JsVal) i = JsVal.nan := rfl

/-- Once the `reduce` accumulator of the linear model over empty weights is
`NaN`, it stays `NaN`. -/
lemma foldl_const_nan (l : List (ℕ × JsVal)) :
    List.foldl (fun (_ : JsVal) (_ : ℕ × JsVal) => JsVal.nan) JsVal.nan l =
      JsVal.nan := by
  induction l with
  | nil => rfl
  | cons p l ih => simpa using ih

/-- On a freshly constructed model (`weights = []`), the linear model of any
nonempty feature vector is `NaN`: the very first `reduce` step reads
`weights[0] = undefined`. -/
lemma linearModelJs_nil_weights (b : JsVal) (x : List JsVal) (hx : x ≠ []) :
    linearModelJs [] b x = JsVal.nan := by
  obtain ⟨v, rest, rfl⟩ := List.exists_cons_of_ne_nil hx
  simp only [linearModelJs, List.enum_cons, List.foldl_cons, jsGet_nil,
    jmul_nan, jadd_nan, foldl_const_nan]
  exact nan_jadd b

/-- `sigmoid(NaN) = NaN`. -/
lemma jsSigmoid_nan : jsSigmoid JsVal.nan = JsVal.nan := rfl

/-- `NaN >= 0.5` is false in JavaScript. -/
lemma not_jsGE_nan (v : JsVal) : ¬ jsGE JsVal.nan v := fun h => h

/-- Fresh-model predictions on nonempty feature vectors: probability `NaN`,
label `0`. -/
lemma predict_nil_weights (b : JsVal) (x : List JsVal) (hx : x ≠ []) :
    predictProbaJs [] b x = JsVal.nan ∧ predictJs [] b x = 0 := by
  have hp : predictProbaJs [] b x = JsVal.nan := by
    rw [predictProbaJs, linearModelJs_nil_weights b x hx, jsSigmoid_nan]
  refine ⟨hp, ?_⟩
  rw [predictJs, hp, if_neg (not_jsGE_nan _)]

/-- `sigmoid(0) = 0.5` exactly, also under JavaScript semantics. -/
lemma jsSigmoid_zero : jsSigmoid (JsVal.num 0) = JsVal.num 0.5 := by
  simp [jsSigmoid, jneg, jexp, jadd, jdiv]
  norm_num [Real.exp_zero]

/-!
## Claims about the model's prediction and error paths
-/

/-- Claim C9: the predicted label is `1` exactly when the predicted
probability is `>= 0.5` (the boundary is classified as `1`), and `0`
otherwise — including the `NaN` case, where the JavaScript comparison is
false and the label is `0`. -/
theorem c9_label_threshold (w : List JsVal) (b : JsVal) (x : List JsVal) :
    (predictJs w b x = 1 ↔ jsGE (predictProbaJs w b x) (JsVal.num 0.5)) ∧
    (predictJs w b x = 0 ↔ ¬ jsGE (predictProbaJs w b x) (JsVal.num 0.5)) := by
  by_cases h : jsGE (predictProbaJs w b x) (JsVal.num 0.5) <;>
    simp [predictJs, h]

/-- Counterexample to claim C5: on the freshly constructed model the weights
array is empty (not a zero vector of feature width), so `predictProba` on the
one-element vector `[1]` reads `weights[0] = undefined` and returns `NaN`,
not `sigmoid(0) = 0.5`, and `predict` returns `0`, not `1`. -/
theorem c5_counterexample :
    predictProbaJs [] (JsVal.num 0) [JsVal.num 1] ≠ JsVal.num 0.5 ∧
    predictJs [] (JsVal.num 0) [JsVal.num 1] ≠ 1 := by
  obtain ⟨hp, hl⟩ := predict_nil_weights (JsVal.num 0) [JsVal.num 1] (by simp)
  rw [hp, hl]
  exact ⟨fun h => JsVal.noConfusion h, by norm_num⟩

/-- Claim C5 as amended: before any `fit` call the weights are the empty
array, so `predictProbability` does not fail but returns `NaN` on every
nonempty feature vector (and `predictLabel` returns `0`); only the empty
feature vector yields `sigmoid(bias) = sigmoid(0) = 0.5` and label `1`. -/
theorem c5_amended :
    (∀ (b : JsVal) (x : List JsVal), x ≠ [] →
      predictProbaJs [] b x = JsVal.nan ∧ predictJs [] b x = 0) ∧
    predictProbaJs [] (JsVal.num 0) [] = JsVal.num 0.5 ∧
    predictJs [] (JsVal.num 0) [] = 1 := by
  have h0 : predictProbaJs [] (JsVal.num 0) [] = JsVal.num 0.5 := by
    simp [predictProbaJs, linearModelJs, jadd]
    simpa using jsSigmoid_zero
  refine ⟨fun b x hx => predict_nil_weights b x hx, h0, ?_⟩
  rw [predictJs, h0, if_pos (by norm_num [jsGE])]

/-- Concrete instance of the amended C5 at the vector `[1]`. -/
theorem c5_amended_witness :
    ([JsVal.num 1] ≠ ([] : List JsVal)) ∧
    predictJs [] (JsVal.num 0) [JsVal.num 1] = 0 :=
  ⟨by simp, (c5_amended.1 (JsVal.num 0) [JsVal.num 1] (by simp)).2⟩

/-- Counterexample to claim C3: `fit` performs no input validation.  On the
ragged matrix `[[1], []]` (with labels `[0, 0]`, learning rate `1`, one
iteration) it does not signal any error — training proceeds, overwriting the
parameters with `NaN`-contaminated values. -/
theorem c3_counterexample :
    fitJs (JsVal.num 1) 1 [[JsVal.num 1], []] [JsVal.num 0, JsVal.num 0] ≠
      Except.error JsErr.typeError := by
  simp [fitJs]

/-- Claim C3 as amended: `fit` throws synchronously only on the empty
feature matrix (a `TypeError` from reading `X[0].length`, raised before the
weights or bias are assigned); on every nonempty matrix — ragged or with a
label vector of different length — no error is signalled and the fixed
iteration budget runs to completion, reassigning the parameters. -/
theorem c3_amended :
    (∀ (lr : JsVal) (iters : ℕ) (y : List JsVal),
      fitJs lr iters [] y = Except.error JsErr.typeError) ∧
    ∀ (lr : JsVal) (iters : ℕ) (r : List JsVal) (X : List (List JsVal))
      (y : List JsVal), (fitJs lr iters (r :: X) y).isOk = true :=
  ⟨fun _ _ _ => rfl, fun _ _ _ _ _ => rfl⟩

/-- Claim C4 (the code bug): `auditGroup` has no guard for an empty
partition — whenever the subgroup predicate matches zero records it returns
the JavaScript value `(0 / 0) * 100 = NaN` instead of an explicit "no data"
result. -/
theorem c4_empty_subgroup_nan (w : List JsVal) (b : JsVal)
    (data : List Patient) (f : Patient → Bool)
    (hf : data.filter f = []) : auditGroup w b data f = JsVal.nan := by
  simp [auditGroup, hf, jdiv, jmul]

/-- Concrete instance of C4: a one-record cohort audited with a predicate
matching no record yields `NaN`. -/
theorem c4_empty_subgroup_nan_witness :
    (List.filter (fun _ => false)
      [(⟨1, 28, DeliveryType.Vaginal, 12, false, 3, Location.Urban, false⟩ :
        Patient)] = []) ∧
    auditGroup [] (JsVal.num 0)
      [⟨1, 28, DeliveryType.Vaginal, 12, false, 3, Location.Urban, false⟩]
      (fun _ => false) = JsVal.nan :=
  ⟨by simp, c4_empty_subgroup_nan [] (JsVal.num 0) _ _ (by simp)⟩

/-- Claim C7: given the four subgroup accuracies, the bias flag is raised
exactly when `|accVaginal - accCesarean| > 10` or `|accUrban - accRural| > 10`
with the fixed threshold compared strictly, so a difference of exactly `10`
percentage points does not raise the flag. -/
theorem c7_bias_flag (w : List JsVal) (b : JsVal) (data : List Patient)
    (a c u r : ℝ)
    (hA : accVaginal w b data = JsVal.num a)
    (hC : accCesarean w b data = JsVal.num c)
    (hU : accUrban w b data = JsVal.num u)
    (hR : accRural w b data = JsVal.num r) :
    (biasFlag w b data ↔ (|a - c| > 10 ∨ |u - r| > 10)) ∧
    (|a - c| = 10 → |u - r| = 10 → ¬ biasFlag w b data) := by
  have hflag : biasFlag w b data ↔ (|a - c| > 10 ∨ |u - r| > 10) := by
    rw [biasFlag, hA, hC, hU, hR]
    rfl
  refine ⟨hflag, fun h1 h2 hb => ?_⟩
  rcases hflag.mp hb with h | h
  · rw [h1] at h; exact lt_irrefl _ h
  · rw [h2] at h; exact lt_irrefl _ h

/-- Concrete instance of C7: on a two-record cohort where the untrained
model predicts `0` for both records and both are not readmitted, all four
subgroup accuracies are `100`, the pairwise differences are `0`, and the
flag is down. -/
theorem c7_bias_flag_witness :
    accVaginal [] (JsVal.num 0)
      [⟨1, 28, DeliveryType.Vaginal, 12, false, 3, Location.Urban, false⟩,
       ⟨2, 30, DeliveryType.Cesarean, 10, false, 4, Location.Rural, false⟩] =
      JsVal.num 100 ∧
    (biasFlag [] (JsVal.num 0)
      [⟨1, 28, DeliveryType.Vaginal, 12, false, 3, Location.Urban, false⟩,
       ⟨2, 30, DeliveryType.Cesarean, 10, false, 4, Location.Rural, false⟩] ↔
      (|(100 : ℝ) - 100| > 10 ∨ |(100 : ℝ) - 100| > 10)) := by
  have hpred : ∀ p : Patient,
      predictJs [] (JsVal.num 0) (toJsVec (preprocessPatient p)) = 0 :=
    fun p => (predict_nil_weights _ _ (by simp [toJsVec, preprocessPatient])).2
  have hA : accVaginal [] (JsVal.num 0)
      [⟨1, 28, DeliveryType.Vaginal, 12, false, 3, Location.Urban, false⟩,
       ⟨2, 30, DeliveryType.Cesarean, 10, false, 4, Location.Rural, false⟩] =
      JsVal.num 100 := by
    simp [accVaginal, auditGroup, hpred, jdiv, jmul]
  have hC : accCesarean [] (JsVal.num 0)
      [⟨1, 28, DeliveryType.Vaginal, 12, false, 3, Location.Urban, false⟩,
       ⟨2, 30, DeliveryType.Cesarean, 10, false, 4, Location.Rural, false⟩] =
      JsVal.num 100 := by
    simp [accCesarean, auditGroup, hpred, jdiv, jmul]
  have hU : accUrban [] (JsVal.num 0)
      [⟨1, 28, DeliveryType.Vaginal, 12, false, 3, Location.Urban, false⟩,
       ⟨2, 30, DeliveryType.Cesarean, 10, false, 4, Location.Rural, false⟩] =
      JsVal.num 100 := by
    simp [accUrban, auditGroup, hpred, jdiv, jmul]
  have hR : accRural [] (JsVal.num 0)
      [⟨1, 28, DeliveryType.Vaginal, 12, false, 3, Location.Urban, false⟩,
       ⟨2, 30, DeliveryType.Cesarean, 10, false, 4, Location.Rural, false⟩] =
      JsVal.num 100 := by
    simp [accRural, auditGroup, hpred, jdiv, jmul]
  exact ⟨hA, (c7_bias_flag _ _ _ _ _ _ _ hA hC hU hR).1⟩

/-!
## Claim C2: `fit` is full-batch gradient descent

`specStep` below renders one round of the spec's description of training —
per-feature gradient sums of `(sigmoid(dot(weights, x_j) + bias) - y_j) * x_jk`
over all samples, the bias gradient sum of the errors, and the
`-= learningRate * gradient / sampleCount` updates — and the claim theorem
proves that the transcribed `fitStep`/`fit` compute exactly its iterates
starting from the zero parameters. -/
noncomputable def specStep (lr : ℝ) (X : List (List ℝ)) (y : List ℝ)
    (wb : List ℝ × ℝ) : List ℝ × ℝ :=
  ((List.range wb.1.length).map (fun k =>
      wb.1.getD k 0 - lr * (((X.zip y).map (fun s =>
        (sigmoid ((List.zipWith (fun xi wi => xi * wi) s.1 wb.1).sum + wb.2)
          - s.2) * s.1.getD k 0)).sum) / (X.length : ℝ)),
   wb.2 - lr * (((X.zip y).map (fun s =>
      sigmoid ((List.zipWith (fun xi wi => xi * wi) s.1 wb.1).sum + wb.2)
        - s.2)).sum) / (X.length : ℝ))

/-- Componentwise description of `zipWith` through `getD`, for indices in
bounds on both sides. -/
lemma zipWith_getD (f : ℝ → ℝ → ℝ) :
    ∀ (a b : List ℝ) (k : ℕ), k < a.length → k < b.length →
      (List.zipWith f a b).getD k 0 = f (a.getD k 0) (b.getD k 0) := by
  intro a
  induction a with
  | nil => intro b k hk; simp at hk
  | cons x a ih =>
    intro b k hk1 hk2
    cases b with
    | nil => simp at hk2
    | cons y b =>
      cases k with
      | zero => simp [List.getD]
      | succ k =>
        simp only [List.zipWith_cons_cons, List.getD_cons_succ]
        exact ih b k (by simpa using hk1) (by simpa using hk2)

/-- The gradient-accumulating fold of `fitStep` computes, componentwise, the
batch sums the spec describes: the final `db` is the sum of the per-sample
errors and the final `dw_k` is the sum of `error * x_jk`, on top of the
initial accumulator. -/
lemma gradFold_spec (w : List ℝ) (bb : ℝ) (nf : ℕ) :
    ∀ (S : List (List ℝ × ℝ)) (d0 : List ℝ) (e0 : ℝ),
      d0.length = nf → (∀ s ∈ S, s.1.length = nf) →
      (S.foldl (fun (acc : List ℝ × ℝ) (s : List ℝ × ℝ) =>
          (List.zipWith (fun dk xk =>
              dk + (sigmoid (linearModel w bb s.1) - s.2) * xk) acc.1 s.1,
           acc.2 + (sigmoid (linearModel w bb s.1) - s.2))) (d0, e0)).1.length
          = nf ∧
      (S.foldl (fun (acc : List ℝ × ℝ) (s : List ℝ × ℝ) =>
          (List.zipWith (fun dk xk =>
              dk + (sigmoid (linearModel w bb s.1) - s.2) * xk) acc.1 s.1,
           acc.2 + (sigmoid (linearModel w bb s.1) - s.2))) (d0, e0)).2
          = e0 + (S.map (fun s => sigmoid (linearModel w bb s.1) - s.2)).sum ∧
      ∀ k, k < nf →
        (S.foldl (fun (acc : List ℝ × ℝ) (s : List ℝ × ℝ) =>
            (List.zipWith (fun dk xk =>
                dk + (sigmoid (linearModel w bb s.1) - s.2) * xk) acc.1 s.1,
             acc.2 + (sigmoid (linearModel w bb s.1) - s.2))) (d0, e0)).1.getD
            k 0
            = d0.getD k 0 +
              (S.map (fun s =>
                (sigmoid (linearModel w bb s.1) - s.2) * s.1.getD k 0)).sum := by
  intro S
  induction S with
  | nil => intro d0 e0 hd _; simp [hd]
  | cons s S ih =>
    intro d0 e0 hd hS
    have hs1 : s.1.length = nf := hS s (by simp)
    have hd' : (List.zipWith (fun dk xk =>
        dk + (sigmoid (linearModel w bb s.1) - s.2) * xk) d0 s.1).length
          = nf := by
      simp [hd, hs1]
    obtain ⟨ih1, ih2, ih3⟩ := ih
      (List.zipWith (fun dk xk =>
        dk + (sigmoid (linearModel w bb s.1) - s.2) * xk) d0 s.1)
      (e0 + (sigmoid (linearModel w bb s.1) - s.2)) hd'
      (fun t ht => hS t (by simp [ht]))
    refine ⟨by simpa using ih1, ?_, ?_⟩
    · simp only [List.foldl_cons, List.map_cons, List.sum_cons]
      rw [ih2]
      ring
    intro k hk
    have hz := zipWith_getD (fun dk xk =>
        dk + (sigmoid (linearModel w bb s.1) - s.2) * xk) d0 s.1 k
      (by omega) (by omega)
    simp only [List.foldl_cons]
    rw [ih3 k hk, hz]
    simp
    ring

/-- For a nonempty matrix with uniform row width matching the weight vector,
one transcribed gradient-descent round equals the spec's round. -/
lemma fitStep_eq_specStep (lr : ℝ) (X : List (List ℝ)) (y : List ℝ) (nf : ℕ)
    (hne : X ≠ []) (hrows : ∀ row ∈ X, row.length = nf)
    (wb : List ℝ × ℝ) (hwb : wb.1.length = nf) :
    fitStep lr X y wb = specStep lr X y wb := by
  have hnf0 : (X.headD []).length = nf := by
    obtain ⟨r, X', rfl⟩ := List.exists_cons_of_ne_nil hne
    exact hrows r (by simp)
  have hzip : ∀ s ∈ X.zip y, (s : List ℝ × ℝ).1.length = nf :=
    fun s hs => hrows s.1 (List.of_mem_zip hs).1
  obtain ⟨hlen, hsum2, hsum1⟩ := gradFold_spec wb.1 wb.2 nf (X.zip y)
    (List.replicate nf 0) 0 (by simp) hzip
  simp only [linearModel] at hlen hsum2 hsum1
  simp only [fitStep, specStep, hnf0, linearModel]
  refine Prod.ext ?_ ?_
  · apply List.ext_getElem
    · simp [hwb, hlen]
    · intro k hk1 hk2
      simp only [List.getElem_zipWith]
      have hk : k < nf := by
        rw [List.length_zipWith, hwb, hlen] at hk1
        omega
      have h1 := hsum1 k hk
      have hrep : (List.replicate nf (0 : ℝ)).getD k 0 = 0 := by
        rw [List.getD_eq_getElem _ _ (by simpa using hk)]
        simp
      rw [hrep, zero_add] at h1
      rw [List.getElem_map, List.getElem_range]
      rw [← List.getD_eq_getElem wb.1 0 (by omega),
        ← List.getD_eq_getElem _ 0 (by omega), h1]
  · show wb.2 - lr * _ / (X.length : ℝ) = _
    rw [hsum2]
    ring

/-- A spec round does not change the width of the weight vector. -/
lemma specStep_length (lr : ℝ) (X : List (List ℝ)) (y : List ℝ)
    (wb : List ℝ × ℝ) : (specStep lr X y wb).1.length = wb.1.length := by
  simp [specStep]

/-- Iterates of the transcribed round and of the spec round agree from any
state of the right width. -/
lemma fitStep_iterate_eq_specStep (lr : ℝ) (X : List (List ℝ))
    (y : List ℝ) (nf : ℕ) (hne : X ≠ [])
    (hrows : ∀ row ∈ X, row.length = nf) :
    ∀ (m : ℕ) (wb : List ℝ × ℝ), wb.1.length = nf →
      (fitStep lr X y)^[m] wb = (specStep lr X y)^[m] wb := by
  intro m
  induction m with
  | zero => intro wb _; rfl
  | succ m ih =>
    intro wb hwb
    rw [Function.iterate_succ_apply, Function.iterate_succ_apply,
      fitStep_eq_specStep lr X y nf hne hrows wb hwb]
    exact ih _ (by rw [specStep_length, hwb])

/-- A dot product against the all-zero weight vector vanishes. -/
lemma zipWith_mul_replicate_zero (x : List ℝ) :
    ∀ nf : ℕ, (List.zipWith (fun xi wi => xi * wi) x
      (List.replicate nf (0 : ℝ))).sum = 0 := by
  induction x with
  | nil => intro nf; simp
  | cons a x ih =>
    intro nf
    cases nf with
    | zero => rfl
    | succ nf =>
      rw [List.replicate_succ, List.zipWith_cons_cons, List.sum_cons, ih nf]
      ring

/-- `sigmoid(0) = 0.5` exactly. -/
lemma sigmoid_zero : sigmoid 0 = 0.5 := by
  rw [sigmoid]
  norm_num [Real.exp_zero]

/-- Claim C2: on a nonempty feature matrix with labels of equal length and
uniform row width `nf`, `fit` resets the parameters to `nf` zero weights and
zero bias and then performs exactly `iters` rounds of the spec's full-batch
gradient descent (`specStep`); consequently with zero iterations the
parameters stay zero and every prediction is `sigmoid(0) = 0.5`. -/
theorem c2_fit_gradient_descent (lr : ℝ) (iters : ℕ) (X : List (List ℝ))
    (y : List ℝ) (nf : ℕ) (hne : X ≠ []) (hlen : X.length = y.length)
    (hrows : ∀ row ∈ X, row.length = nf) :
    fit lr iters X y = (specStep lr X y)^[iters] (List.replicate nf 0, 0) ∧
    fit lr 0 X y = (List.replicate nf 0, 0) ∧
    ∀ x : List ℝ,
      predictProba (fit lr 0 X y).1 (fit lr 0 X y).2 x = sigmoid 0 ∧
      sigmoid 0 = 0.5 := by
  have hnf0 : (X.headD []).length = nf := by
    obtain ⟨r, X', rfl⟩ := List.exists_cons_of_ne_nil hne
    exact hrows r (by simp)
  have h0 : fit lr 0 X y = (List.replicate nf 0, 0) := by
    rw [fit, hnf0]
    rfl
  refine ⟨?_, h0, ?_⟩
  · rw [fit, hnf0]
    exact fitStep_iterate_eq_specStep lr X y nf hne hrows iters _ (by simp)
  · intro x
    rw [h0]
    refine ⟨?_, sigmoid_zero⟩
    rw [predictProba, linearModel]
    simp [zipWith_mul_replicate_zero x nf]

/-- Concrete instance of C2 at the one-sample matrix `[[1]]` with zero
iterations: the parameters remain zero and the prediction on `[1]` is
`sigmoid 0`. -/
theorem c2_fit_gradient_descent_witness :
    ([[(1 : ℝ)]] ≠ ([] : List (List ℝ))) ∧
    fit 1 0 [[(1 : ℝ)]] [(0 : ℝ)] = (List.replicate 1 0, 0) ∧
    predictProba (fit 1 0 [[(1 : ℝ)]] [(0 : ℝ)]).1
      (fit 1 0 [[(1 : ℝ)]] [(0 : ℝ)]).2 [(1 : ℝ)] = sigmoid 0 := by
  have h := c2_fit_gradient_descent 1 0 [[(1 : ℝ)]] [(0 : ℝ)] 1
    (by simp) rfl (by simp)
  exact ⟨by simp, h.2.1, (h.2.2 [(1 : ℝ)]).1⟩

/-!
## Agreement of the two embeddings

The `ℝ`-level model used for the training claims and the `JsVal`-level model
used for the error-path claims are transcriptions of the same source; on
well-formed numeric inputs (uniform row width matching the weight vector,
labels as long as the matrix) they agree exactly.
-/

/-- The `reduce` of the linear model over in-bounds numeric data computes the
real dot product of the vector with the corresponding weight prefix. -/
lemma foldl_enumFrom_num (w : List ℝ) :
    ∀ (x : List ℝ) (n : ℕ) (a : ℝ), n + x.length ≤ w.length →
      ((x.map JsVal.num).enumFrom n).foldl
          (fun acc p => jadd acc (jmul p.2 (jsGet (w.map JsVal.num) p.1)))
          (JsVal.num a) =
        JsVal.num (a +
          (List.zipWith (fun xi wi => xi * wi) x (w.drop n)).sum) := by
  intro x
  induction x with
  | nil => intro n a _; simp
  | cons v x ih =>
    intro n a hn
    have hnw : n < w.length := by simp at hn; omega
    have hget : jsGet (w.map JsVal.num) n = JsVal.num w[n] := by
      rw [jsGet, List.getD_eq_getElem _ _ (by simpa using hnw),
        List.getElem_map]
    rw [List.map_cons, List.enumFrom_cons, List.foldl_cons]
    show List.foldl
        (fun acc p => jadd acc (jmul p.2 (jsGet (List.map JsVal.num w) p.1)))
        (jadd (JsVal.num a) (jmul (JsVal.num v) (jsGet (List.map JsVal.num w) n)))
        (List.enumFrom (n + 1) (List.map JsVal.num x)) = _
    rw [hget]
    show List.foldl
        (fun acc p => jadd acc (jmul p.2 (jsGet (List.map JsVal.num w) p.1)))
        (JsVal.num (a + v * w[n]))
        (List.enumFrom (n + 1) (List.map JsVal.num x)) = _
    rw [ih (n + 1) (a + v * w[n]) (by simp at hn ⊢; omega)]
    rw [List.drop_eq_getElem_cons hnw, List.zipWith_cons_cons,
      List.sum_cons]
    congr 1
    ring

/-- On numeric data with `x` no wider than the weights, the JavaScript
linear model is the real one. -/
lemma linearModelJs_num (w x : List ℝ) (b : ℝ) (hx : x.length ≤ w.length) :
    linearModelJs (w.map JsVal.num) (JsVal.num b) (x.map JsVal.num) =
      JsVal.num (linearModel w b x) := by
  rw [linearModelJs, List.enum]
  rw [foldl_enumFrom_num w x 0 0 (by simpa using hx)]
  rw [linearModel, List.drop_zero]
  show JsVal.num _ = _
  rw [zero_add]

/-- On a number, the JavaScript sigmoid is the real sigmoid. -/
lemma jsSigmoid_num (z : ℝ) :
    jsSigmoid (JsVal.num z) = JsVal.num (sigmoid z) := by
  have hpos : (1 : ℝ) + Real.exp (-z) ≠ 0 := by positivity
  rw [jsSigmoid, jneg, jexp, jadd, jdiv]
  rw [if_neg hpos, sigmoid]

/-- On well-formed numeric inputs the JavaScript prediction functions agree
with the `ℝ`-level ones. -/
lemma predictJs_num (w x : List ℝ) (b : ℝ) (hx : x.length ≤ w.length) :
    predictProbaJs (w.map JsVal.num) (JsVal.num b) (x.map JsVal.num) =
      JsVal.num (predictProba w b x) ∧
    predictJs (w.map JsVal.num) (JsVal.num b) (x.map JsVal.num) =
      predict w b x := by
  have hp : predictProbaJs (w.map JsVal.num) (JsVal.num b) (x.map JsVal.num) =
      JsVal.num (predictProba w b x) := by
    rw [predictProbaJs, linearModelJs_num w x b hx, jsSigmoid_num,
      predictProba]
  refine ⟨hp, ?_⟩
  rw [predictJs, predict, hp]
  by_cases h : predictProba w b x ≥ 0.5
  · rw [if_pos h,
      if_pos (show jsGE (JsVal.num (predictProba w b x)) (JsVal.num 0.5)
        from h)]
  · rw [if_neg h,
      if_neg (show ¬ jsGE (JsVal.num (predictProba w b x)) (JsVal.num 0.5)
        from h)]

/-- The indexed `dw[k] += diff * X[j][k]` update over numeric data with all
reads in bounds is the corresponding real `zipWith`. -/
lemma dwMap_num (c : ℝ) (r : List ℝ) :
    ∀ (d : List ℝ) (n : ℕ), n + d.length ≤ r.length →
      ((d.map JsVal.num).enumFrom n).map
          (fun kd => jadd kd.2
            (jmul (JsVal.num c) (jsGet (r.map JsVal.num) kd.1))) =
        (List.zipWith (fun dk xk => dk + c * xk) d (r.drop n)).map
          JsVal.num := by
  intro d
  induction d with
  | nil => intro n _; simp
  | cons u d ih =>
    intro n hn
    have hnr : n < r.length := by simp at hn; omega
    have hget : jsGet (r.map JsVal.num) n = JsVal.num r[n] := by
      rw [jsGet, List.getD_eq_getElem _ _ (by simpa using hnr),
        List.getElem_map]
    rw [List.map_cons, List.enumFrom_cons, List.map_cons]
    rw [List.drop_eq_getElem_cons hnr, List.zipWith_cons_cons,
      List.map_cons]
    congr 1
    · show jadd (JsVal.num u)
        (jmul (JsVal.num c) (jsGet (r.map JsVal.num) n)) = _
      rw [hget]
      rfl
    · exact ih (n + 1) (by simp at hn ⊢; omega)

/-- The gradient-accumulating sample loop of `fit` under JavaScript
semantics simulates the real one on well-formed numeric inputs. -/
lemma fitFold_num (w : List ℝ) (b : ℝ) (y : List ℝ) (nf : ℕ)
    (hw : w.length = nf) :
    ∀ (Xs : List (List ℝ)) (n : ℕ) (dw : List ℝ) (db : ℝ),
      n + Xs.length ≤ y.length → (∀ row ∈ Xs, row.length = nf) →
      dw.length = nf →
      ((Xs.map (List.map JsVal.num)).enumFrom n).foldl
          (fun (acc : List JsVal × JsVal) (jr : ℕ × List JsVal) =>
            (acc.1.enum.map (fun kd => jadd kd.2
              (jmul (jsub (jsSigmoid (linearModelJs (w.map JsVal.num)
                  (JsVal.num b) jr.2)) (jsGet (y.map JsVal.num) jr.1))
                (jsGet jr.2 kd.1))),
             jadd acc.2 (jsub (jsSigmoid (linearModelJs (w.map JsVal.num)
                (JsVal.num b) jr.2)) (jsGet (y.map JsVal.num) jr.1))))
          (dw.map JsVal.num, JsVal.num db) =
        (((Xs.zip (y.drop n)).foldl
            (fun (acc : List ℝ × ℝ) (s : List ℝ × ℝ) =>
              (List.zipWith (fun dk xk =>
                  dk + (sigmoid (linearModel w b s.1) - s.2) * xk) acc.1 s.1,
               acc.2 + (sigmoid (linearModel w b s.1) - s.2))) (dw, db)).1.map
          JsVal.num,
         JsVal.num ((Xs.zip (y.drop n)).foldl
            (fun (acc : List ℝ × ℝ) (s : List ℝ × ℝ) =>
              (List.zipWith (fun dk xk =>
                  dk + (sigmoid (linearModel w b s.1) - s.2) * xk) acc.1 s.1,
               acc.2 + (sigmoid (linearModel w b s.1) - s.2))) (dw, db)).2) := by
  intro Xs
  induction Xs with
  | nil => intro n dw db _ _ _; simp
  | cons row Xs ih =>
    intro n dw db hn hrows hdw
    have hny : n < y.length := by simp at hn; omega
    have hgety : jsGet (y.map JsVal.num) n = JsVal.num y[n] := by
      rw [jsGet, List.getD_eq_getElem _ _ (by simpa using hny),
        List.getElem_map]
    have hrow : row.length = nf := hrows row (by simp)
    have hlin : linearModelJs (w.map JsVal.num) (JsVal.num b)
        (row.map JsVal.num) = JsVal.num (linearModel w b row) :=
      linearModelJs_num w row b (by omega)
    have hdwmap := dwMap_num (sigmoid (linearModel w b row) - y[n]) row dw 0
      (by omega)
    rw [List.drop_zero] at hdwmap
    rw [List.map_cons, List.enumFrom_cons, List.foldl_cons]
    rw [List.drop_eq_getElem_cons hny, List.zip_cons_cons, List.foldl_cons]
    have hstep :
        ((dw.map JsVal.num).enum.map (fun kd => jadd kd.2
            (jmul (jsub (jsSigmoid (linearModelJs (w.map JsVal.num)
                (JsVal.num b) (row.map JsVal.num)))
              (jsGet (y.map JsVal.num) n)) (jsGet (row.map JsVal.num) kd.1))),
         jadd (JsVal.num db) (jsub (jsSigmoid (linearModelJs (w.map JsVal.num)
            (JsVal.num b) (row.map JsVal.num))) (jsGet (y.map JsVal.num) n)))
          = ((List.zipWith (fun dk xk =>
              dk + (sigmoid (linearModel w b row) - y[n]) * xk) dw row).map
            JsVal.num,
           JsVal.num (db + (sigmoid (linearModel w b row) - y[n]))) := by
      rw [hlin, jsSigmoid_num, hgety]
      refine Prod.ext ?_ rfl
      show (dw.map JsVal.num).enum.map (fun kd => jadd kd.2
        (jmul (JsVal.num (sigmoid (linearModel w b row) - y[n]))
          (jsGet (row.map JsVal.num) kd.1))) = _
      rw [List.enum]
      exact hdwmap
    rw [hstep]
    rw [ih (n + 1) _ _ (by simp at hn ⊢; omega)
      (fun t ht => hrows t (by simp [ht])) (by simp [hdw, hrow])]

/-- One gradient-descent round under JavaScript semantics equals the real
round on well-formed numeric inputs. -/
lemma fitStepJs_num (lr : ℝ) (X : List (List ℝ)) (y : List ℝ) (nf : ℕ)
    (w : List ℝ) (b : ℝ) (hne : X ≠ []) (hlen : X.length = y.length)
    (hrows : ∀ row ∈ X, row.length = nf) (hw : w.length = nf) :
    fitStepJs (JsVal.num lr) (X.map (List.map JsVal.num)) (y.map JsVal.num)
        nf (w.map JsVal.num, JsVal.num b) =
      ((fitStep lr X y (w, b)).1.map JsVal.num,
       JsVal.num (fitStep lr X y (w, b)).2) := by
  have hnf0 : (X.headD []).length = nf := by
    obtain ⟨r, X', rfl⟩ := List.exists_cons_of_ne_nil hne
    exact hrows r (by simp)
  have hXn : ((X.map (List.map JsVal.num)).length : ℝ) = (X.length : ℝ) := by
    simp
  have hX0 : (X.length : ℝ) ≠ 0 := by
    simpa using fun h => hne (List.length_eq_zero.mp h)
  have hfold := fitFold_num w b y nf hw X 0 (List.replicate nf 0) 0
    (by omega) hrows (by simp)
  rw [List.drop_zero] at hfold
  have henum : List.enumFrom 0 (X.map (List.map JsVal.num)) =
      (X.map (List.map JsVal.num)).enum := rfl
  rw [henum] at hfold
  simp only [fitStepJs, fitStep, hnf0]
  rw [← List.map_replicate]
  rw [hfold]
  refine Prod.ext ?_ ?_
  · show List.zipWith _ (w.map JsVal.num) (List.map JsVal.num _) = _
    rw [List.zipWith_map, List.map_zipWith]
    congr 1
    funext wk dk
    show jsub (JsVal.num wk)
      (jdiv (jmul (JsVal.num lr) (JsVal.num dk))
        (JsVal.num ((X.map (List.map JsVal.num)).length : ℝ))) = _
    rw [hXn, jmul, jdiv, if_neg hX0, jsub]
  · show jsub (JsVal.num b)
      (jdiv (jmul (JsVal.num lr) (JsVal.num _))
        (JsVal.num ((X.map (List.map JsVal.num)).length : ℝ))) = _
    rw [hXn, jmul, jdiv, if_neg hX0, jsub]

/-- A transcribed round preserves the width of the weight vector. -/
lemma fitStep_length (lr : ℝ) (X : List (List ℝ)) (y : List ℝ) (nf : ℕ)
    (hne : X ≠ []) (hrows : ∀ row ∈ X, row.length = nf)
    (wb : List ℝ × ℝ) (hwb : wb.1.length = nf) :
    (fitStep lr X y wb).1.length = nf := by
  rw [fitStep_eq_specStep lr X y nf hne hrows wb hwb, specStep_length, hwb]

/-- Full agreement of the two `fit` embeddings: on a nonempty numeric
matrix of uniform row width with labels of equal length, the
JavaScript-semantics `fit` succeeds and returns exactly the parameters of
the `ℝ`-level `fit`. -/
theorem fitJs_num (lr : ℝ) (iters : ℕ) (X : List (List ℝ)) (y : List ℝ)
    (nf : ℕ) (hne : X ≠ []) (hlen : X.length = y.length)
    (hrows : ∀ row ∈ X, row.length = nf) :
    fitJs (JsVal.num lr) iters (X.map (List.map JsVal.num))
        (y.map JsVal.num) =
      Except.ok ((fit lr iters X y).1.map JsVal.num,
        JsVal.num (fit lr iters X y).2) := by
  have hnf0 : (X.headD []).length = nf := by
    obtain ⟨r, X', rfl⟩ := List.exists_cons_of_ne_nil hne
    exact hrows r (by simp)
  have hiter : ∀ (m : ℕ) (w : List ℝ) (b : ℝ), w.length = nf →
      (fitStepJs (JsVal.num lr) (X.map (List.map JsVal.num))
          (y.map JsVal.num) nf)^[m] (w.map JsVal.num, JsVal.num b) =
        (((fitStep lr X y)^[m] (w, b)).1.map JsVal.num,
         JsVal.num ((fitStep lr X y)^[m] (w, b)).2) := by
    intro m
    induction m with
    | zero => intro w b _; rfl
    | succ m ih =>
      intro w b hwb
      rw [Function.iterate_succ_apply, Function.iterate_succ_apply]
      rw [fitStepJs_num lr X y nf w b hne hlen hrows hwb]
      rw [ih (fitStep lr X y (w, b)).1 (fitStep lr X y (w, b)).2
        (fitStep_length lr X y nf hne hrows (w, b) hwb)]
  obtain ⟨r, X', rfl⟩ := List.exists_cons_of_ne_nil hne
  have hr : (r.map JsVal.num).length = nf := by
    simpa using hrows r (by simp)
  rw [fit, hnf0]
  show Except.ok ((fitStepJs (JsVal.num lr)
      ((r :: X').map (List.map JsVal.num)) (y.map JsVal.num)
      (r.map JsVal.num).length)^[iters]
        (List.replicate (r.map JsVal.num).length (JsVal.num 0),
         JsVal.num 0)) = _
  rw [hr, ← List.map_replicate]
  rw [hiter iters (List.replicate nf 0) 0 (by simp)]

end NEMI
